import Mathlib

/-!
Verification of the EPC protocol engine in `epc/server.py` (an early
work-in-progress snapshot of python-epc).  Python byte/character strings are
modelled as `List Char`; the handful of behaviours supplied by CPython or the
external `sexpdata` library (hex parsing by `int(head, 16)`, `repr` of
exceptions, the s-expression serializer) are modelled by explicit executable
definitions, documented at each site.
-/

namespace EPC

/-- Model of a Python `str` value (a sequence of characters). -/
abbrev PyStr := List Char

/-! ## Hexadecimal header codec

`EPCHandler._recv` parses the 6-byte frame header with `int(head, 16)`;
`encode_string` prints the header with the format specification `0:06x`
(lowercase hexadecimal, zero-padded on the left to width 6). -/

/-- Value of one hexadecimal digit character, as accepted by Python
`int(-, 16)` (both cases); `Option.none` for a non-hex character. -/
def hexDigitVal (c : Char) : Option Nat :=
  if '0' ≤ c ∧ c ≤ '9' then some (c.toNat - 48)
  else if 'a' ≤ c ∧ c ≤ 'f' then some (c.toNat - 87)
  else if 'A' ≤ c ∧ c ≤ 'F' then some (c.toNat - 55)
  else Option.none

/-- One step of the left-to-right accumulation performed by `int(-, 16)`. -/
def hexStep (acc : Option Nat) (c : Char) : Option Nat :=
  acc.bind (fun a => (hexDigitVal c).map (fun d => a * 16 + d))

/-- Models Python `int(s, 16)` on the strings the protocol actually feeds it
(runs of hexadecimal digit characters): `Option.none` models the `ValueError`
raised on an empty or non-hexadecimal string. -/
def hexParse (s : PyStr) : Option Nat :=
  match s with
  | [] => Option.none
  | _ :: _ => s.foldl hexStep (some 0)

/-- The lowercase hexadecimal digit character for `n < 16`. -/
def hexDigitChar (n : Nat) : Char :=
  if n < 10 then Char.ofNat (n + 48) else Char.ofNat (n + 87)

/-- Little-endian hexadecimal digits of `n`, with structural fuel so that the
kernel can evaluate it; any fuel `≥ n` is enough (`toHexRevF_congr`). -/
def toHexRevF : Nat → Nat → List Char
  | 0, _ => []
  | _ + 1, 0 => []
  | fuel + 1, n + 1 => hexDigitChar ((n + 1) % 16) :: toHexRevF fuel ((n + 1) / 16)

/-- Little-endian list of the hexadecimal digits of `n` (empty for `0`). -/
def toHexRev (n : Nat) : List Char :=
  toHexRevF n n

theorem toHexRevF_congr : ∀ f₁ f₂ n, n ≤ f₁ → n ≤ f₂ → toHexRevF f₁ n = toHexRevF f₂ n := by
  intro f₁
  induction f₁ with
  | zero =>
    intro f₂ n h₁ _
    interval_cases n
    cases f₂ <;> rfl
  | succ k ih =>
    intro f₂ n h₁ h₂
    match n, f₂ with
    | 0, f₂ => cases f₂ <;> rfl
    | m + 1, f₂ + 1 =>
      show hexDigitChar _ :: toHexRevF k ((m + 1) / 16)
        = hexDigitChar _ :: toHexRevF f₂ ((m + 1) / 16)
      have hd : (m + 1) / 16 ≤ m := by
        have := Nat.div_lt_self (Nat.succ_pos m) (show 1 < 16 by omega)
        omega
      rw [ih f₂ ((m + 1) / 16) (by omega) (by omega)]

/-- Unfolding equation for `toHexRev` at positive arguments. -/
theorem toHexRev_eq (n : Nat) (h : n ≠ 0) :
    toHexRev n = hexDigitChar (n % 16) :: toHexRev (n / 16) := by
  match n, h with
  | m + 1, _ =>
    show toHexRevF (m + 1) (m + 1) = _
    have hd : (m + 1) / 16 ≤ m := by
      have := Nat.div_lt_self (Nat.succ_pos m) (show 1 < 16 by omega)
      omega
    show hexDigitChar _ :: toHexRevF m ((m + 1) / 16)
      = hexDigitChar _ :: toHexRevF ((m + 1) / 16) ((m + 1) / 16)
    rw [toHexRevF_congr m ((m + 1) / 16) ((m + 1) / 16) hd (Nat.le_refl _)]

/-- Models the Python format specification `0:06x` applied to `n`: the
lowercase hexadecimal digits of `n`, left-padded with `0` to width at least
six (wider if `n` needs more than six digits). -/
def format06x (n : Nat) : PyStr :=
  let ds := (toHexRev n).reverse
  let ds := if ds = [] then ['0'] else ds
  List.replicate (6 - ds.length) '0' ++ ds

/-- `encode_string` from `epc/server.py`: the frame for payload `s` is the
width-6 zero-padded lowercase hex of `len(s) + 1`, then `s`, then a newline. -/
def encode_string (s : PyStr) : PyStr :=
  format06x (s.length + 1) ++ (s ++ ['\n'])

/-! ## The stream decoder `EPCHandler._recv`

`_recv` is a generator: it repeatedly reads a 6-byte header (ending the
sequence normally if the read returns no bytes), parses it as hex, reads that
many payload bytes (raising `ValueError` on a short read) and yields them.
We model the generator's complete behaviour on a finite stream: the list of
payloads it yielded, and whether it ended normally or raised. -/

/-- Outcome of draining `_recv` on a finite stream: the payloads yielded in
order, ending either normally (`ok`) or with an uncaught exception (`error`). -/
inductive RecvResult where
  | ok (frames : List PyStr)
  | error (frames : List PyStr)

/-- The body of `_recv`'s `while True` loop, with explicit fuel.  Each
iteration consumes at least one character of a nonempty stream, so any fuel
greater than the stream length is enough (see `recvLoopF_congr`);
`recvLoop` below supplies it. -/
def recvLoopF : Nat → List Char → RecvResult
  | 0, _ => RecvResult.error []
  | fuel + 1, s =>
    let head := s.take 6
    if head = [] then RecvResult.ok []
    else
      match hexParse head with
      | Option.none => RecvResult.error []
      | some length =>
        let data := (s.drop 6).take length
        if data.length < length then RecvResult.error []
        else
          match recvLoopF fuel ((s.drop 6).drop length) with
          | RecvResult.ok fs => RecvResult.ok (data :: fs)
          | RecvResult.error fs => RecvResult.error (data :: fs)

/-- `EPCHandler._recv`, drained on the finite stream `s`. -/
def recvLoop (s : List Char) : RecvResult :=
  recvLoopF (s.length + 1) s

/-! ### Helper lemmas on lists and the hex codec -/

theorem take_length_append (a b : List α) : (a ++ b).take a.length = a := by
  induction a with
  | nil => rfl
  | cons x xs ih => simp [List.take, ih]

theorem drop_length_append (a b : List α) : (a ++ b).drop a.length = b := by
  induction a with
  | nil => rfl
  | cons x xs ih => simp [List.drop, ih]

theorem hexParse_of_ne_nil (s : PyStr) (h : s ≠ []) :
    hexParse s = s.foldl hexStep (some 0) := by
  cases s with
  | nil => exact absurd rfl h
  | cons c cs => rfl

theorem hexDigitVal_hexDigitChar (d : Nat) (h : d < 16) :
    hexDigitVal (hexDigitChar d) = some d := by
  interval_cases d <;> decide

theorem foldl_hexStep_toHexRev (n : Nat) :
    ∀ a : Nat, List.foldl hexStep (some a) (toHexRev n).reverse
      = some (a * 16 ^ (toHexRev n).length + n) := by
  induction n using Nat.strong_induction_on with
  | _ n ih =>
    intro a
    match n with
    | 0 => simp [toHexRev, toHexRevF]
    | m + 1 =>
      rw [toHexRev_eq (m + 1) (by omega)]
      rw [List.reverse_cons, List.foldl_append]
      rw [ih ((m + 1) / 16) (Nat.div_lt_self (Nat.succ_pos m) (by omega))]
      simp only [List.foldl_cons, List.foldl_nil, hexStep, Option.bind_some]
      rw [hexDigitVal_hexDigitChar ((m + 1) % 16) (Nat.mod_lt _ (by omega))]
      simp only [Option.some_bind', Option.map_some', List.length_cons, Option.some.injEq]
      rw [pow_succ, Nat.add_mul, Nat.mul_assoc, Nat.add_assoc]
      congr 1
      omega

theorem foldl_hexStep_zeros (m : Nat) :
    List.foldl hexStep (some 0) (List.replicate m '0') = some 0 := by
  induction m with
  | zero => rfl
  | succ k ih => simpa [List.replicate_succ, hexStep, hexDigitVal] using ih

theorem toHexRev_length_le (k : Nat) :
    ∀ n : Nat, n < 16 ^ k → (toHexRev n).length ≤ k := by
  induction k with
  | zero =>
    intro n hn
    interval_cases n
    simp [toHexRev, toHexRevF]
  | succ k ih =>
    intro n hn
    match n with
    | 0 => simp [toHexRev, toHexRevF]
    | m + 1 =>
      rw [toHexRev_eq (m + 1) (by omega)]
      simp only [List.length_cons]
      have : (m + 1) / 16 < 16 ^ k := by
        rw [Nat.div_lt_iff_lt_mul (by omega)]
        calc m + 1 < 16 ^ (k + 1) := hn
        _ = 16 ^ k * 16 := by rw [pow_succ]
      exact Nat.succ_le_succ (ih _ this)

/-- The sixteen characters that `format06x` can emit. -/
def hexChars : List Char := "0123456789abcdef".toList

theorem hexDigitChar_mem (d : Nat) (h : d < 16) : hexDigitChar d ∈ hexChars := by
  interval_cases d <;> decide

theorem toHexRev_mem (n : Nat) : ∀ c ∈ toHexRev n, c ∈ hexChars := by
  induction n using Nat.strong_induction_on with
  | _ n ih =>
    intro c hc
    match n with
    | 0 => simp [toHexRev, toHexRevF] at hc
    | m + 1 =>
      rw [toHexRev_eq (m + 1) (by omega)] at hc
      rcases List.mem_cons.mp hc with h | h
      · subst h; exact hexDigitChar_mem _ (Nat.mod_lt _ (by omega))
      · exact ih ((m + 1) / 16) (Nat.div_lt_self (Nat.succ_pos m) (by omega)) c h

/-- For `n < 16 ^ 6` the printed header is exactly six characters, all
lowercase hex digits, and parses back to `n`. -/
theorem format06x_spec (n : Nat) (hn : n < 16 ^ 6) :
    (format06x n).length = 6 ∧ hexParse (format06x n) = some n ∧
      ∀ c ∈ format06x n, c ∈ hexChars := by
  match n with
  | 0 => refine ⟨by decide, by decide, by decide⟩
  | m + 1 =>
    have hds : (toHexRev (m + 1)).reverse ≠ [] := by
      rw [toHexRev_eq (m + 1) (by omega)]
      simp
    have hlen : (toHexRev (m + 1)).length ≤ 6 := toHexRev_length_le 6 _ hn
    have hfx : format06x (m + 1)
        = List.replicate (6 - (toHexRev (m + 1)).length) '0'
          ++ (toHexRev (m + 1)).reverse := by
      unfold format06x
      simp only [if_neg hds, List.length_reverse]
    have hfxlen : (format06x (m + 1)).length = 6 := by
      rw [hfx]
      simp only [List.length_append, List.length_replicate, List.length_reverse]
      omega
    refine ⟨hfxlen, ?_, ?_⟩
    · have hne : format06x (m + 1) ≠ [] := by
        intro h
        rw [h] at hfxlen
        simp at hfxlen
      rw [hexParse_of_ne_nil _ hne, hfx, List.foldl_append]
      have h0 : List.foldl hexStep (some 0)
          (List.replicate (6 - (toHexRev (m + 1)).length) '0') = some 0 :=
        foldl_hexStep_zeros _
      rw [h0, foldl_hexStep_toHexRev]
      simp
    · intro c hc
      rw [hfx] at hc
      rcases List.mem_append.mp hc with h | h
      · have := List.eq_of_mem_replicate h
        subst this
        decide
      · exact toHexRev_mem _ c (List.mem_reverse.mp h)

/-! ### Lemmas about the stream decoder -/

theorem take_ne_nil_of_ne_nil {s : List Char} (h : s ≠ []) : s.take 6 ≠ [] := by
  cases s with
  | nil => exact absurd rfl h
  | cons c cs => simp [List.take]

theorem recvLoopF_congr : ∀ f₁ f₂ s, s.length < f₁ → s.length < f₂ →
    recvLoopF f₁ s = recvLoopF f₂ s := by
  intro f₁
  induction f₁ with
  | zero => intro f₂ s h₁ _; omega
  | succ k ih =>
    intro f₂ s h₁ h₂
    match f₂ with
    | 0 => omega
    | j + 1 =>
      show recvLoopF (k + 1) s = recvLoopF (j + 1) s
      by_cases hh : s.take 6 = []
      · simp only [recvLoopF, hh, if_pos]
      · have hs : s ≠ [] := by
          intro h
          subst h
          exact hh rfl
        have hslen : 1 ≤ s.length := by
          cases s with
          | nil => exact absurd rfl hs
          | cons c cs => simp
        simp only [recvLoopF, hh, if_neg, reduceIte]
        cases hexParse (s.take 6) with
        | none => rfl
        | some length =>
          simp only []
          by_cases hd : ((s.drop 6).take length).length < length
          · simp only [hd, if_pos]
          · simp only [hd, if_neg, reduceIte]
            have hrec : ((s.drop 6).drop length).length < k ∧
                ((s.drop 6).drop length).length < j := by
              simp only [List.length_drop]
              omega
            rw [ih j ((s.drop 6).drop length) hrec.1 hrec.2]

/-- Decoding a stream that starts with one complete frame: the 6-byte header
`h` is read, its hex value is the length of `b`, `b` is yielded, and decoding
continues on the remainder. -/
theorem recvLoop_step (h b t : List Char) (hh : h.length = 6)
    (hv : hexParse h = some b.length) :
    recvLoop (h ++ (b ++ t))
      = match recvLoop t with
        | RecvResult.ok fs => RecvResult.ok (b :: fs)
        | RecvResult.error fs => RecvResult.error (b :: fs) := by
  have hne : h ≠ [] := by
    intro hnil
    rw [hnil] at hh
    simp at hh
  have htake : (h ++ (b ++ t)).take 6 = h := by
    rw [← hh]
    exact take_length_append h (b ++ t)
  have hdrop : (h ++ (b ++ t)).drop 6 = b ++ t := by
    rw [← hh]
    exact drop_length_append h (b ++ t)
  have hlen : (h ++ (b ++ t)).length = 6 + (b.length + t.length) := by
    simp [hh]
  show recvLoopF ((h ++ (b ++ t)).length + 1) (h ++ (b ++ t)) = _
  rw [hlen]
  simp only [recvLoopF, htake, hdrop, if_neg hne, hv]
  rw [take_length_append b t, drop_length_append b t]
  simp only [Nat.lt_irrefl, if_neg, reduceIte]
  rw [recvLoopF_congr (6 + (b.length + t.length)) (t.length + 1) t (by omega) (by omega)]
  rfl

/-- `s` is a concatenation of complete frames: each a 6-byte header whose hex
value is the length of the following body. -/
inductive CleanFrames : List Char → Prop
  | nil : CleanFrames []
  | cons (h b rest : List Char) : h.length = 6 → hexParse h = some b.length →
      CleanFrames rest → CleanFrames (h ++ (b ++ rest))

/-- Concatenation of (header, body) chunks into one stream. -/
def chunksJoin : List (PyStr × PyStr) → PyStr
  | [] => []
  | p :: ps => p.1 ++ (p.2 ++ chunksJoin ps)

theorem recvLoop_chunks (ps : List (PyStr × PyStr))
    (hps : ∀ p ∈ ps, p.1.length = 6 ∧ hexParse p.1 = some p.2.length) :
    ∀ t, recvLoop (chunksJoin ps ++ t)
      = match recvLoop t with
        | RecvResult.ok fs => RecvResult.ok (ps.map Prod.snd ++ fs)
        | RecvResult.error fs => RecvResult.error (ps.map Prod.snd ++ fs) := by
  induction ps with
  | nil =>
    intro t
    simp only [chunksJoin, List.nil_append, List.map_nil]
    cases recvLoop t <;> simp
  | cons p ps ih =>
    intro t
    have hp := hps p (List.mem_cons_self p ps)
    have hrest : ∀ q ∈ ps, q.1.length = 6 ∧ hexParse q.1 = some q.2.length :=
      fun q hq => hps q (List.mem_cons_of_mem p hq)
    have hassoc : chunksJoin (p :: ps) ++ t = p.1 ++ (p.2 ++ (chunksJoin ps ++ t)) := by
      simp [chunksJoin, List.append_assoc]
    rw [hassoc, recvLoop_step p.1 p.2 (chunksJoin ps ++ t) hp.1 hp.2, ih hrest t]
    cases recvLoop t <;> simp

theorem recvLoop_nil : recvLoop [] = RecvResult.ok [] := rfl

/-- A nonempty tail whose (possibly truncated) header declares more payload
bytes than remain makes the decoder raise. -/
theorem recvLoop_truncated (t : List Char) (hne : t ≠ []) (L : Nat)
    (hv : hexParse (t.take 6) = some L) (hshort : (t.drop 6).length < L) :
    recvLoop t = RecvResult.error [] := by
  have hh := take_ne_nil_of_ne_nil hne
  have hlen : ((t.drop 6).take L).length < L := by
    simp only [List.length_take, List.length_drop]
    simp only [List.length_drop] at hshort
    omega
  show recvLoopF (t.length + 1) t = _
  simp only [recvLoopF, if_neg hh, hv, hlen, if_pos]

/-- A stream that is exactly `z` zero characters (`1 ≤ z ≤ 5`, a truncated
all-zero header) makes the decoder yield one empty payload and end normally. -/
theorem recvLoop_zeros (z : Nat) (h1 : 1 ≤ z) (h5 : z ≤ 5) :
    recvLoop (List.replicate z '0') = RecvResult.ok [[]] := by
  have htake : (List.replicate z '0').take 6 = List.replicate z '0' := by
    rw [List.take_replicate]
    congr 1
    omega
  have hne : List.replicate z '0' ≠ [] := by
    match z, h1 with
    | z' + 1, _ => simp [List.replicate_succ]
  have hv : hexParse (List.replicate z '0') = some 0 := by
    rw [hexParse_of_ne_nil _ hne]
    exact foldl_hexStep_zeros z
  have hdrop : (List.replicate z '0').drop 6 = [] := by
    rw [List.drop_replicate]
    have hz : z - 6 = 0 := by omega
    rw [hz]
    rfl
  show recvLoopF ((List.replicate z '0').length + 1) (List.replicate z '0') = _
  simp only [recvLoopF, htake, if_neg hne, hv, hdrop]
  simp only [List.take_nil, List.length_nil, Nat.lt_irrefl, if_neg, reduceIte,
    List.drop_nil, List.length_replicate]
  match z, h1, h5 with
  | z' + 1, _, _ => rfl

/-! ## S-expression values and the `sexpdata` codec

The payload of every frame is a value serialized by the external `sexpdata`
library: symbols, strings, integers, nested lists, and Python `None`
(serialized as the symbol `nil`).  Python tuples are serialized exactly like
lists, so `Value.list` models both. -/

/-- A structured value as handled by `sexpdata` (`loads`/`dumps`). -/
inductive Value where
  | sym (s : String)
  | str (s : String)
  | int (n : Int)
  | list (vs : List Value)
  | none

/-- `sexpdata` string escaping: backslash-escape `"` and `\`. -/
def escapeChars : List Char → List Char
  | [] => []
  | c :: cs =>
    if c = '"' ∨ c = '\\' then '\\' :: c :: escapeChars cs
    else c :: escapeChars cs

mutual

/-- Models `sexpdata.dumps`: symbols print bare, strings print quoted with
escapes, integers in decimal, `None` as `nil`, lists parenthesized with
single-space separators. -/
def dumps : Value → PyStr
  | Value.sym s => s.toList
  | Value.str s => '"' :: (escapeChars s.toList ++ ['"'])
  | Value.int n => (toString n).toList
  | Value.none => 'n' :: 'i' :: ['l']
  | Value.list vs => '(' :: (dumpsList vs ++ [')'])

/-- Space-separated serialization of the elements of a list value. -/
def dumpsList : List Value → PyStr
  | [] => []
  | [v] => dumps v
  | v :: vs => dumps v ++ (' ' :: dumpsList vs)

end

/-- `encode_object` from `epc/server.py`: serialize, then frame. -/
def encode_object (obj : Value) : PyStr :=
  encode_string (dumps obj)

/-! ### The `sexpdata` reader (`loads`)

`EPCHandler.handle` runs `loads(sexp)` on every received payload.  This is a
recursive-descent reader for the same grammar `dumps` writes: lists in
parentheses, double-quoted strings with backslash escapes, decimal integers,
and symbols (any other token).  `Option.none` models a parse failure, which
in Python is an uncaught exception. -/

/-- Whitespace characters skipped between tokens. -/
def isWs (c : Char) : Bool :=
  c = ' ' ∨ c = '\n' ∨ c = '\t' ∨ c = '\r'

/-- Characters that end a bare token. -/
def isDelim (c : Char) : Bool :=
  isWs c ∨ c = '(' ∨ c = ')' ∨ c = '"'

/-- Drop leading whitespace. -/
def skipWs : PyStr → PyStr
  | [] => []
  | c :: cs => if isWs c then skipWs cs else c :: cs

/-- Read a maximal run of non-delimiter characters. -/
def takeTok : PyStr → List Char × PyStr
  | [] => ([], [])
  | c :: cs =>
    if isDelim c then ([], c :: cs)
    else
      let p := takeTok cs
      (c :: p.1, p.2)

/-- Read a quoted string body up to the closing quote, unescaping
backslash-escaped characters; `Option.none` on an unterminated string. -/
def parseStrBody : PyStr → Option (List Char × PyStr)
  | [] => Option.none
  | c :: cs =>
    if c = '"' then some ([], cs)
    else if c = '\\' then
      match cs with
      | [] => Option.none
      | e :: cs2 => (parseStrBody cs2).map (fun br => (e :: br.1, br.2))
    else (parseStrBody cs).map (fun br => (c :: br.1, br.2))

/-- Is this token a decimal integer literal? -/
def isIntTok (t : List Char) : Bool :=
  match t with
  | [] => false
  | '-' :: ds => ds ≠ [] ∧ ds.all (fun c => c.isDigit)
  | ds => ds.all (fun c => c.isDigit)

/-- Decimal value of a digit run. -/
def decVal (ds : List Char) : Nat :=
  ds.foldl (fun a c => a * 10 + (c.toNat - 48)) 0

/-- Classify a bare token as an integer or a symbol, as `sexpdata` does. -/
def tokValue (t : List Char) : Value :=
  if isIntTok t then
    match t with
    | '-' :: ds => Value.int (-(decVal ds : Int))
    | ds => Value.int (decVal ds)
  else Value.sym (String.mk t)

mutual

/-- Read one s-expression.  The fuel only bounds recursion depth; `loads`
supplies `length + 1`, which is enough for every input that parses. -/
def parseSexp : Nat → PyStr → Option (Value × PyStr)
  | 0, _ => Option.none
  | fuel + 1, s =>
    match skipWs s with
    | [] => Option.none
    | '(' :: r => (parseItems fuel r).map (fun p => (Value.list p.1, p.2))
    | '"' :: r => (parseStrBody r).map (fun p => (Value.str (String.mk p.1), p.2))
    | c :: cs =>
      let p := takeTok (c :: cs)
      if p.1 = [] then Option.none else some (tokValue p.1, p.2)

/-- Read list elements up to the closing parenthesis. -/
def parseItems : Nat → PyStr → Option (List Value × PyStr)
  | 0, _ => Option.none
  | fuel + 1, s =>
    match skipWs s with
    | [] => Option.none
    | ')' :: r => some ([], r)
    | s2 => (parseSexp fuel s2).bind
        (fun p => (parseItems fuel p.2).map (fun q => (p.1 :: q.1, q.2)))

end

/-- Models `sexpdata.loads`: read exactly one expression (trailing whitespace
allowed); anything else raises in Python, modelled as `Option.none`. -/
def loads (s : PyStr) : Option Value :=
  match parseSexp (s.length + 1) s with
  | some p => if skipWs p.2 = [] then some p.1 else Option.none
  | Option.none => Option.none

/-! ## The dispatcher (`EPCHandler`)

Registered functions live in `EPCServer.funcs`, a dict from name to callable.
A callable is modelled as a Lean function returning `Except String Value`:
`Except.error e` models the callable raising an exception whose `repr` is
`e`.  `func.__doc__` is modelled as `Option String`. -/

/-- A registered function: the callable and its docstring. -/
structure PyFunc where
  fn : List Value → Except String Value
  doc : Option String

/-- `EPCServer.funcs` (a dict), modelled as an association list whose keys
are unique. -/
abbrev Registry := List (String × PyFunc)

/-- Dict lookup `self.server.funcs[name]` (with the `name in self.server.funcs`
membership test). -/
def lookupFunc (funcs : Registry) (name : String) : Option PyFunc :=
  (funcs.find? (fun p => p.1 == name)).map Prod.snd

/-- Models `.value()` on a decoded element: `sexpdata`'s `Symbol` and
`String` wrappers both have it; any other value raises `AttributeError`
(modelled as `Option.none`). -/
def sexpValue : Value → Option String
  | Value.sym s => some s
  | Value.str s => some s
  | _ => Option.none

/-- Models Python argument splatting `func(*args)`: a list splats into its
elements, a string into its characters, anything else raises `TypeError`. -/
def splatArgs : Value → Option (List Value)
  | Value.list vs => some vs
  | Value.str s => some (s.toList.map (fun c => Value.str (String.mk [c])))
  | _ => Option.none

/-- `EPCHandler._handle_call`: resolve the method name; if registered, call
it and wrap the result in a `return` reply, letting any exception it raises
propagate; otherwise reply `epc-error` with a descriptive string. -/
def handle_call (funcs : Registry) (uid meth argsv : Value) : Except String Value :=
  match sexpValue meth with
  | some name =>
    match lookupFunc funcs name with
    | some func =>
      match splatArgs argsv with
      | some argl =>
        match func.fn argl with
        | Except.ok r => Except.ok (Value.list [Value.sym ("return"), uid, r])
        | Except.error e => Except.error e
      | Option.none => Except.error ("TypeError: arguments not iterable")
    | Option.none => Except.ok (Value.list [Value.sym ("epc-error"), uid,
        Value.str ("EPC-ERROR: No such method : " ++ name)])
  | Option.none => Except.error ("AttributeError: value")

/-- `EPCHandler._handle_return`: the body is `pass`, so it returns `None`
whatever its arguments are; its own comment says a callback dict should be
consulted here, but none exists. -/
def handle_return (_uid _meth _args : Value) : Value :=
  Value.none

/-- The entry `(Symbol(name), [], String(func.__doc__ or ""))` built by
`EPCHandler._handle_methods` for one registered function. -/
def methodEntry (p : String × PyFunc) : Value :=
  Value.list [Value.sym p.1, Value.list [], Value.str (p.2.doc.getD "")]

/-- `EPCHandler._handle_methods`: a `return` reply listing every registered
function. -/
def handle_methods (funcs : Registry) (uid : Value) : Value :=
  Value.list [Value.sym ("return"), uid, Value.list (funcs.map methodEntry)]

/-- The `try` body of `EPCHandler._handle`: `getattr` the `_handle_{name}`
method (raising `AttributeError` for an unrecognized tag) and call it with
`(uid, *args)` (raising `TypeError` when the arity does not match). -/
def dispatchTry (funcs : Registry) (name : String) (uid : Value)
    (args : List Value) : Except String Value :=
  if name = "call" then
    match args with
    | [meth, argsv] => handle_call funcs uid meth argsv
    | _ => Except.error ("TypeError: _handle_call argument count")
  else if name = "return" then
    match args with
    | [meth, argsv] => Except.ok (handle_return uid meth argsv)
    | _ => Except.error ("TypeError: _handle_return argument count")
  else if name = "methods" then
    match args with
    | [] => Except.ok (handle_methods funcs uid)
    | _ => Except.error ("TypeError: _handle_methods argument count")
  else Except.error ("AttributeError: _handle_" ++ name)

/-- `EPCHandler._handle`.  When the `try` body raises, the `except` block
first evaluates `self.debugger` — but `EPCHandler` has no `debugger`
attribute (only `EPCServer` does), so that lookup itself raises
`AttributeError`; the `return-error` reply the block goes on to build is
never produced, and the new exception propagates out of `_handle`.
`Option.none` models that uncaught exception. -/
def handle_dispatch (funcs : Registry) (name : String) (uid : Value)
    (args : List Value) : Option Value :=
  match dispatchTry funcs name uid args with
  | Except.ok ret => some ret
  | Except.error _err => Option.none

/-- One iteration of the loop in `EPCHandler.handle`: `loads` the payload,
take `data[0].value()` as the tag and `data[1]` as the uid (either failing
kills the session: these run outside the `try` of `_handle`), dispatch, and
encode the reply.  `Option.none` models an uncaught exception. -/
def processFrame (funcs : Registry) (frame : PyStr) : Option PyStr :=
  match loads frame with
  | some (Value.list (h :: uid :: args)) =>
    match sexpValue h with
    | some name =>
      match handle_dispatch funcs name uid args with
      | some ret => some (encode_object ret)
      | Option.none => Option.none
    | Option.none => Option.none
  | _ => Option.none

/-- The receive loop of `EPCHandler.handle` over the payloads yielded by
`_recv`: each is processed and its reply sent; an uncaught exception stops
the loop (flag `false`), sending nothing for the failing payload. -/
def handleFrames (funcs : Registry) : List PyStr → List PyStr × Bool
  | [] => ([], true)
  | f :: fs =>
    match processFrame funcs f with
    | some reply =>
      let r := handleFrames funcs fs
      (reply :: r.1, r.2)
    | Option.none => ([], false)

/-- `EPCHandler.handle` on a whole finite stream: frames are produced lazily
by `_recv`, so replies to payloads yielded before a framing error are still
sent; the flag records whether the session ended without an exception. -/
def handle (funcs : Registry) (input : List Char) : List PyStr × Bool :=
  match recvLoop input with
  | RecvResult.ok fs => handleFrames funcs fs
  | RecvResult.error fs => ((handleFrames funcs fs).1, false)

/-! ## The outbound caller (`EPCCaller`) -/

/-- `EPCCaller` state: the uid generator (`itertools`-style counter starting
at 0) and the `callbacks` dict.  `κ` is the type of completion callbacks. -/
structure EPCCaller (κ : Type) where
  nextUid : Nat
  callbacks : List (Nat × κ)

/-- `EPCCaller.__init__`: counter at 0, empty callback table. -/
def EPCCaller.init {κ : Type} : EPCCaller κ :=
  ⟨0, []⟩

/-- `EPCCaller._send_object`: it computes `encode_object(obj)` and then does
nothing with it (the source comment asks `How to send this string??`), so
the list of frames actually written to any transport is empty. -/
def send_object (obj : Value) : List PyStr :=
  let _encoded := encode_object obj
  []

/-- `EPCCaller.call`: draw the next uid, encode (and fail to send) the
message `[Symbol('call'), uid, name] + args`, and register the callback
under the uid.  Returns the new state, the uid drawn, and the frames
actually transmitted. -/
def EPCCaller.call {κ : Type} (c : EPCCaller κ) (name : Value)
    (args : List Value) (callback : κ) : EPCCaller κ × Nat × List PyStr :=
  let uid := c.nextUid
  let out := send_object (Value.list ([Value.sym ("call"), Value.int uid, name] ++ args))
  (⟨uid + 1, (uid, callback) :: c.callbacks⟩, uid, out)

/-! ## Demonstration registry used by concrete evaluations -/

/-- The `echo` function of `echo_server`: returns its argument tuple. -/
def echoFunc : PyFunc :=
  ⟨fun args => Except.ok (Value.list args), some "Return argument unchanged."⟩

/-- A registered function whose callable raises. -/
def boomFunc : PyFunc :=
  ⟨fun _ => Except.error ("ValueError: boom"), some "Always raises."⟩

/-- A small registry with one normal and one raising function. -/
def demoFuncs : Registry :=
  [("echo", echoFunc), ("boom", boomFunc)]

/-- The name in the head position of a `methods` listing entry. -/
def entryName : Value → Option String
  | Value.list (Value.sym n :: _) => some n
  | _ => Option.none

/-! ## Auxiliary lemmas for the claim theorems -/

/-- A `CleanFrames` stream is empty or at least as long as one header. -/
theorem CleanFrames.six_le {s : List Char} (hc : CleanFrames s) :
    s = [] ∨ 6 ≤ s.length := by
  cases hc with
  | nil => exact Or.inl rfl
  | cons h b rest h6 hv hr =>
    right
    simp only [List.length_append]
    omega

theorem toList_append (a b : String) : (a ++ b).toList = a.toList ++ b.toList :=
  String.data_append a b

/-- Header facts for one encoded frame, `n < 16 ^ 6` being the range in which
the Python format emits exactly six digits. -/
theorem encode_string_header (s : PyStr) (hs : s.length + 1 < 16 ^ 6) :
    (encode_string s).take 6 = format06x (s.length + 1) ∧
      (encode_string s).drop 6 = s ++ ['\n'] := by
  obtain ⟨hlen, _hparse, _hmem⟩ := format06x_spec (s.length + 1) hs
  constructor
  · show (format06x (s.length + 1) ++ (s ++ ['\n'])).take 6 = _
    rw [← hlen]
    exact take_length_append _ _
  · show (format06x (s.length + 1) ++ (s ++ ['\n'])).drop 6 = _
    rw [← hlen]
    exact drop_length_append _ _

/-- Decoding a single well-sized encoded frame yields the payload plus the
newline and continues on the rest of the stream. -/
theorem recvLoop_encode_step (s : PyStr) (hs : s.length + 1 < 16 ^ 6) (t : List Char) :
    recvLoop (encode_string s ++ t)
      = match recvLoop t with
        | RecvResult.ok fs => RecvResult.ok ((s ++ ['\n']) :: fs)
        | RecvResult.error fs => RecvResult.error ((s ++ ['\n']) :: fs) := by
  obtain ⟨hlen, hparse, _hmem⟩ := format06x_spec (s.length + 1) hs
  have hb : (s ++ ['\n']).length = s.length + 1 := by
    simp
  have hassoc : encode_string s ++ t = format06x (s.length + 1) ++ ((s ++ ['\n']) ++ t) := by
    show format06x (s.length + 1) ++ (s ++ ['\n']) ++ t = _
    rw [List.append_assoc]
  rw [hassoc]
  exact recvLoop_step _ _ t hlen (by rw [hb]; exact hparse)

/-! ## Claim theorems -/

/-- C1 (code_bug evaluation): `_handle_return` is an unimplemented stub.  A
4-element `return` message just executes `pass` and the dispatcher returns
Python `None`, which the receive loop then encodes and sends as a `nil`
frame; the wire-format 3-element `return(uid, value)` does not even match
the stub's arity, so dispatch raises and the session dies.  No callback
table is consulted in either case. -/
theorem C1_return_handler_stub :
    handle_dispatch demoFuncs ("return") (Value.int 0) [Value.int 1, Value.int 2]
        = some Value.none
    ∧ processFrame demoFuncs (("(return 0 1 2)\n").toList) = some (("000004nil\n").toList)
    ∧ handle_dispatch demoFuncs ("return") (Value.int 0) [Value.int 99] = Option.none
    ∧ handle_return (Value.int 0) (Value.int 1) (Value.int 2) = Value.none :=
  ⟨rfl, rfl, rfl, rfl⟩

/-- C2 (counterexample): decoding the concatenation of the encoded frames of
`"a"` and `"bb"` does not yield `["a", "bb"]` — each yielded payload carries
the trailing newline, because the header counts `len(s) + 1` bytes. -/
theorem C2_decode_newline_counterexample :
    recvLoop (encode_string (("a").toList) ++ encode_string (("bb").toList))
        = RecvResult.ok [("a\n").toList, ("bb\n").toList]
    ∧ [("a\n").toList, ("bb\n").toList] ≠ [("a").toList, ("bb").toList] :=
  ⟨rfl, by decide⟩

/-- C2 (amended): for payloads small enough that the header is exactly six
digits, the frame is the six-digit zero-padded lowercase hex of `len(s) + 1`
followed by `s` and a newline; decoding two concatenated frames yields the
two payloads each with the trailing newline appended. -/
theorem C2_framing_amended (s s1 s2 : PyStr)
    (hs : s.length + 1 < 16 ^ 6) (h1 : s1.length + 1 < 16 ^ 6)
    (h2 : s2.length + 1 < 16 ^ 6) :
    ((encode_string s).take 6 = format06x (s.length + 1)
      ∧ ((encode_string s).take 6).length = 6
      ∧ hexParse ((encode_string s).take 6) = some (s.length + 1)
      ∧ (∀ c ∈ (encode_string s).take 6, c ∈ hexChars)
      ∧ (encode_string s).drop 6 = s ++ ['\n'])
    ∧ recvLoop (encode_string s1 ++ encode_string s2)
        = RecvResult.ok [s1 ++ ['\n'], s2 ++ ['\n']] := by
  obtain ⟨hlen, hparse, hmem⟩ := format06x_spec (s.length + 1) hs
  obtain ⟨htake, hdrop⟩ := encode_string_header s hs
  refine ⟨⟨htake, ?_, ?_, ?_, hdrop⟩, ?_⟩
  · rw [htake]; exact hlen
  · rw [htake]; exact hparse
  · rw [htake]; exact hmem
  · have hstep1 := recvLoop_encode_step s1 h1 (encode_string s2)
    have hstep2 := recvLoop_encode_step s2 h2 []
    rw [List.append_nil] at hstep2
    rw [hstep1, hstep2, recvLoop_nil]

/-- C2 (witness): the amended framing theorem at `s = "a"`, `s1 = "a"`,
`s2 = "bb"`. -/
theorem C2_framing_witness :
    hexParse ((encode_string (("a").toList)).take 6) = some 2
    ∧ recvLoop (encode_string (("a").toList) ++ encode_string (("bb").toList))
        = RecvResult.ok [("a\n").toList, ("bb\n").toList] := by
  have H := C2_framing_amended (("a").toList) (("a").toList) (("bb").toList)
    (by decide) (by decide) (by decide)
  exact ⟨H.1.2.2.1, H.2⟩

/-- C3 (code_bug evaluation): an unrecognized tag makes `getattr` raise
`AttributeError` inside `_handle`; the `except` block then evaluates
`self.debugger`, which `EPCHandler` does not have, so a second
`AttributeError` escapes: the session sends nothing (not even `epc-error`)
and the receive loop dies without processing later messages. -/
theorem C3_unknown_tag_kills_session :
    dispatchTry demoFuncs ("frobnicate") (Value.int 7) []
        = Except.error ("AttributeError: _handle_frobnicate")
    ∧ handle_dispatch demoFuncs ("frobnicate") (Value.int 7) [] = Option.none
    ∧ handleFrames demoFuncs [("(frobnicate 7)\n").toList, ("(methods 8)\n").toList]
        = ([], false) :=
  ⟨rfl, rfl, rfl⟩

/-- C4 (counterexample): the stream `"00"` is not a concatenation of
complete frames — it ends two bytes into a frame header — yet the decoder
ends its sequence normally and yields a phantom empty payload instead of
failing. -/
theorem C4_truncated_header_counterexample :
    recvLoop (("00").toList) = RecvResult.ok [[]]
    ∧ ¬ CleanFrames (("00").toList) :=
  ⟨rfl, by
    intro hc
    rcases hc.six_le with h | h
    · exact absurd h (by decide)
    · exact absurd h (by decide)⟩

/-- C4 (amended): on a stream of complete frames the decoder ends normally
exactly at the frame boundary, yielding the frame bodies; if the stream
instead ends with a tail whose (possibly truncated) header declares more
payload bytes than remain, the decoder fails with an error; but a tail that
is a truncated all-zero header (one to five `'0'` bytes) makes it yield one
extra phantom empty payload and still end normally. -/
theorem C4_stream_end_amended (ps : List (PyStr × PyStr))
    (hps : ∀ p ∈ ps, p.1.length = 6 ∧ hexParse p.1 = some p.2.length) :
    recvLoop (chunksJoin ps) = RecvResult.ok (ps.map Prod.snd)
    ∧ (∀ t L, t ≠ [] → hexParse (t.take 6) = some L → (t.drop 6).length < L →
        recvLoop (chunksJoin ps ++ t) = RecvResult.error (ps.map Prod.snd))
    ∧ (∀ z, 1 ≤ z → z ≤ 5 →
        recvLoop (chunksJoin ps ++ List.replicate z '0')
          = RecvResult.ok (ps.map Prod.snd ++ [[]])) := by
  refine ⟨?_, ?_, ?_⟩
  · have h := recvLoop_chunks ps hps []
    rw [List.append_nil] at h
    rw [h, recvLoop_nil]
    simp
  · intro t L ht hv hs
    rw [recvLoop_chunks ps hps t, recvLoop_truncated t ht L hv hs]
    simp
  · intro z hz1 hz5
    rw [recvLoop_chunks ps hps _, recvLoop_zeros z hz1 hz5]

/-- C4 (witness): the amended theorem at one concrete complete frame
(header `000002`, body `"a\n"`), with a short tail and a zero tail. -/
theorem C4_stream_end_witness :
    recvLoop (chunksJoin [(("000002").toList, ("a\n").toList)])
        = RecvResult.ok [("a\n").toList]
    ∧ recvLoop (chunksJoin [(("000002").toList, ("a\n").toList)] ++ ("000005xy").toList)
        = RecvResult.error [("a\n").toList]
    ∧ recvLoop (chunksJoin [(("000002").toList, ("a\n").toList)] ++ List.replicate 2 '0')
        = RecvResult.ok [("a\n").toList, []] := by
  have H := C4_stream_end_amended [(("000002").toList, ("a\n").toList)]
    (by
      intro p hp
      rcases List.mem_singleton.mp hp with h
      subst h
      exact ⟨by decide, by decide⟩)
  exact ⟨H.1, H.2.1 (("000005xy").toList) 5 (by decide) (by decide) (by decide),
    H.2.2 2 (by decide) (by decide)⟩

/-- C7 (code_bug evaluation): when a registered callable raises, the
exception reaches `_handle`'s `except` block, but the block's own
`self.debugger` lookup raises `AttributeError` (`EPCHandler` has no
`debugger` attribute), so no `return-error` reply is built: the session
sends nothing and dies, never reaching later messages. -/
theorem C7_handler_exception_kills_session :
    dispatchTry demoFuncs ("call") (Value.int 2) [Value.sym ("boom"), Value.list []]
        = Except.error ("ValueError: boom")
    ∧ handle_dispatch demoFuncs ("call") (Value.int 2) [Value.sym ("boom"), Value.list []]
        = Option.none
    ∧ handleFrames demoFuncs [("(call 2 boom ())\n").toList, ("(methods 3)\n").toList]
        = ([], false) :=
  ⟨rfl, rfl, rfl⟩

/-- C8 (code_bug evaluation): `EPCCaller.call` does allocate the uids
`0, 1, 2, …` in order (strictly increasing, never reused) and registers each
callback under its uid, but `_send_object` only computes the encoded frame
and discards it, so the list of frames transmitted is empty — nothing is
ever sent. -/
theorem C8_caller_allocates_but_sends_nothing :
    (∀ (c : EPCCaller Nat) (name : Value) (args : List Value) (cb : Nat),
        (EPCCaller.call c name args cb).2.2 = []
        ∧ (EPCCaller.call c name args cb).2.1 = c.nextUid
        ∧ (EPCCaller.call c name args cb).1.nextUid = c.nextUid + 1
        ∧ (EPCCaller.call c name args cb).1.callbacks = (c.nextUid, cb) :: c.callbacks)
    ∧ ((((EPCCaller.init : EPCCaller Nat).call (Value.sym ("m")) [] 10).1.call
          (Value.sym ("m")) [] 11).1.call (Value.sym ("m")) [] 12).1.callbacks
        = [(2, 12), (1, 11), (0, 10)]
    ∧ ((EPCCaller.init : EPCCaller Nat).call (Value.sym ("m")) [] 10).2.1 = 0
    ∧ (((EPCCaller.init : EPCCaller Nat).call (Value.sym ("m")) [] 10).1.call
          (Value.sym ("m")) [] 11).2.1 = 1
    ∧ ((((EPCCaller.init : EPCCaller Nat).call (Value.sym ("m")) [] 10).1.call
          (Value.sym ("m")) [] 11).1.call (Value.sym ("m")) [] 12).2.1 = 2 :=
  ⟨fun _ _ _ _ => ⟨rfl, rfl, rfl, rfl⟩, rfl, rfl, rfl, rfl⟩

/-- C5: dispatching `call(uid, name, args)` for a function registered under
`name` whose call returns `v` produces the reply `return(uid, v)`. -/
theorem C5_call_success (funcs : Registry) (mname : String) (f : PyFunc)
    (cargs : List Value) (v : Value) (uid : Value)
    (hlook : lookupFunc funcs mname = some f) (hfn : f.fn cargs = Except.ok v) :
    handle_dispatch funcs ("call") uid [Value.sym mname, Value.list cargs]
      = some (Value.list [Value.sym ("return"), uid, v]) := by
  have hd : dispatchTry funcs ("call") uid [Value.sym mname, Value.list cargs]
      = handle_call funcs uid (Value.sym mname) (Value.list cargs) := rfl
  unfold handle_dispatch
  rw [hd]
  unfold handle_call
  simp only [sexpValue, splatArgs, hlook, hfn]

/-- C5 (witness): calling the registered `echo` with `["x", "y"]` yields
`return(0, ["x", "y"])`. -/
theorem C5_call_success_witness :
    handle_dispatch demoFuncs ("call") (Value.int 0)
        [Value.sym ("echo"), Value.list [Value.str ("x"), Value.str ("y")]]
      = some (Value.list [Value.sym ("return"), Value.int 0,
          Value.list [Value.str ("x"), Value.str ("y")]]) :=
  C5_call_success demoFuncs ("echo") echoFunc [Value.str ("x"), Value.str ("y")]
    (Value.list [Value.str ("x"), Value.str ("y")]) (Value.int 0) rfl rfl

/-- C6: a `call` naming an unregistered method yields an `epc-error` reply
with the same uid and a descriptive string containing `No such method`; no
exception is raised, and the session keeps processing later messages. -/
theorem C6_unknown_method (funcs : Registry) (mname : String) (uid argsv : Value)
    (hlook : lookupFunc funcs mname = Option.none) :
    handle_dispatch funcs ("call") uid [Value.sym mname, argsv]
      = some (Value.list [Value.sym ("epc-error"), uid,
          Value.str ("EPC-ERROR: No such method : " ++ mname)])
    ∧ List.IsInfix (("No such method").toList)
        (("EPC-ERROR: No such method : " ++ mname).toList)
    ∧ (handleFrames demoFuncs
        [("(call 1 missing ())\n").toList, ("(methods 2)\n").toList]).2 = true
    ∧ (handleFrames demoFuncs
        [("(call 1 missing ())\n").toList, ("(methods 2)\n").toList]).1.length = 2 := by
  refine ⟨?_, ?_, rfl, rfl⟩
  · have hd : dispatchTry funcs ("call") uid [Value.sym mname, argsv]
        = handle_call funcs uid (Value.sym mname) argsv := rfl
    unfold handle_dispatch
    rw [hd]
    unfold handle_call
    simp only [sexpValue, hlook]
  · refine ⟨("EPC-ERROR: ").toList, (" : ").toList ++ mname.toList, ?_⟩
    rw [toList_append, ← List.append_assoc]
    congr 1

/-- C6 (witness): `call(1, "missing", [])` against the demo registry. -/
theorem C6_unknown_method_witness :
    handle_dispatch demoFuncs ("call") (Value.int 1)
        [Value.sym ("missing"), Value.list []]
      = some (Value.list [Value.sym ("epc-error"), Value.int 1,
          Value.str ("EPC-ERROR: No such method : missing")]) :=
  (C6_unknown_method demoFuncs ("missing") (Value.int 1) (Value.list []) rfl).1

/-- With unique registry keys, filtering the `methods` listing by a
registered name isolates exactly that function's entry. -/
theorem filter_methodEntry (funcs : Registry) (n : String) (f : PyFunc)
    (hnd : (funcs.map Prod.fst).Nodup) (hmem : (n, f) ∈ funcs) :
    (funcs.map methodEntry).filter (fun e => decide (entryName e = some n))
      = [methodEntry (n, f)] := by
  induction funcs with
  | nil => simp at hmem
  | cons p ps ih =>
    obtain ⟨pn, pf⟩ := p
    rw [List.map_cons, List.nodup_cons] at hnd
    obtain ⟨hp, hnd2⟩ := hnd
    rcases List.mem_cons.mp hmem with heq | hmem2
    · obtain ⟨rfl, rfl⟩ := Prod.mk.injEq .. ▸ heq
      have hnil : (ps.map methodEntry).filter
          (fun e => decide (entryName e = some n)) = [] := by
        rw [List.filter_eq_nil_iff]
        intro e he
        obtain ⟨q, hq, rfl⟩ := List.mem_map.mp he
        simp only [methodEntry, entryName, decide_eq_true_eq, Option.some.injEq]
        intro hqn
        apply hp
        show n ∈ List.map Prod.fst ps
        have hq1 : q.1 ∈ List.map Prod.fst ps := List.mem_map_of_mem Prod.fst hq
        rw [← hqn]
        exact hq1
      rw [List.map_cons, List.filter_cons, hnil]
      simp [methodEntry, entryName]
    · have hne : pn ≠ n := by
        intro h
        apply hp
        show (pn, pf).1 ∈ List.map Prod.fst ps
        have hn : n ∈ List.map Prod.fst ps := List.mem_map_of_mem Prod.fst hmem2
        rw [h]
        exact hn
      rw [List.map_cons, List.filter_cons, ih hnd2 hmem2]
      simp [methodEntry, entryName, hne]

/-- C9: dispatching `methods(uid)` yields `return(uid, L)` where `L` has one
entry `(name, [], description)` per registered function; with unique keys,
each registered function appears in `L` exactly once. -/
theorem C9_methods_listing (funcs : Registry) (uid : Value) :
    handle_dispatch funcs ("methods") uid []
      = some (Value.list [Value.sym ("return"), uid,
          Value.list (funcs.map methodEntry)])
    ∧ ((funcs.map Prod.fst).Nodup → ∀ n f, (n, f) ∈ funcs →
        (funcs.map methodEntry).filter (fun e => decide (entryName e = some n))
          = [Value.list [Value.sym n, Value.list [], Value.str (f.doc.getD "")]]) :=
  ⟨rfl, fun hnd n f hmem => filter_methodEntry funcs n f hnd hmem⟩

/-- C9 (witness): the `methods` reply for the demo registry, and the unique
entry isolated for `echo`. -/
theorem C9_methods_listing_witness :
    handle_dispatch demoFuncs ("methods") (Value.int 3) []
      = some (Value.list [Value.sym ("return"), Value.int 3, Value.list
          [Value.list [Value.sym ("echo"), Value.list [],
            Value.str ("Return argument unchanged.")],
           Value.list [Value.sym ("boom"), Value.list [],
            Value.str ("Always raises.")]]])
    ∧ (demoFuncs.map methodEntry).filter
        (fun e => decide (entryName e = some ("echo")))
      = [Value.list [Value.sym ("echo"), Value.list [],
          Value.str ("Return argument unchanged.")]] := by
  have H := C9_methods_listing demoFuncs (Value.int 3)
  exact ⟨H.1, H.2 (by decide) ("echo") echoFunc (by simp [demoFuncs])⟩

/-- Every frame whose processing succeeds gets exactly one reply, and the
loop reaches the end of the frame list. -/
theorem handleFrames_all_some (funcs : Registry) :
    ∀ frames : List PyStr, (∀ f ∈ frames, (processFrame funcs f).isSome) →
      (handleFrames funcs frames).1.length = frames.length
      ∧ (handleFrames funcs frames).2 = true := by
  intro frames
  induction frames with
  | nil => intro _; exact ⟨rfl, rfl⟩
  | cons f fs ih =>
    intro h
    obtain ⟨r, hr⟩ := Option.isSome_iff_exists.mp (h f (List.mem_cons_self f fs))
    have hrest := ih (fun g hg => h g (List.mem_cons_of_mem f hg))
    simp only [handleFrames, hr]
    exact ⟨by simp [hrest.1], hrest.2⟩

/-- C10 (counterexample): the frame `(frobnicate 7)` is successfully decoded
into a well-formed message, yet the receive loop writes zero outbound frames
for it (dispatch raises and the session dies). -/
theorem C10_decoded_but_no_reply_counterexample :
    loads (("(frobnicate 7)\n").toList)
        = some (Value.list [Value.sym ("frobnicate"), Value.int 7])
    ∧ handleFrames demoFuncs [("(frobnicate 7)\n").toList] = ([], false) :=
  ⟨rfl, rfl⟩

/-- C10 (amended): for every successfully decoded inbound message whose
dispatch completes without an uncaught exception, the receive loop writes
exactly one outbound frame — the dispatcher's result, encoded; messages whose
handler returns no value (4-element `return` messages) get a frame encoding
`nil`; and the loop over a cleanly decoded stream is exactly the frame loop. -/
theorem C10_reply_per_message_amended (funcs : Registry) (frames : List PyStr)
    (hall : ∀ f ∈ frames, (processFrame funcs f).isSome) :
    ((handleFrames funcs frames).1.length = frames.length
      ∧ (handleFrames funcs frames).2 = true)
    ∧ (∀ f name uid args ret,
        loads f = some (Value.list (Value.sym name :: uid :: args)) →
        handle_dispatch funcs name uid args = some ret →
        processFrame funcs f = some (encode_object ret))
    ∧ (∀ uid m a, handle_dispatch funcs ("return") uid [m, a] = some Value.none)
    ∧ encode_object Value.none = ("000004nil\n").toList
    ∧ (∀ input, recvLoop input = RecvResult.ok frames →
        handle funcs input = handleFrames funcs frames) := by
  refine ⟨handleFrames_all_some funcs frames hall, ?_, fun uid m a => rfl, rfl, ?_⟩
  · intro f name uid args ret hload hdisp
    simp only [processFrame, hload, sexpValue, hdisp]
  · intro input h
    unfold handle
    rw [h]

/-- C10 (witness): a two-message stream — a `methods` request and a
4-element `return` — gets exactly two replies, and feeding the raw framed
bytes through `handle` agrees with the frame loop. -/
theorem C10_reply_per_message_witness :
    (handleFrames demoFuncs
        [("(methods 1)\n").toList, ("(return 2 1 2)\n").toList]).1.length = 2
    ∧ handle_dispatch demoFuncs ("return") (Value.int 9) [Value.int 1, Value.int 2]
        = some Value.none
    ∧ handle demoFuncs (("00000c(methods 1)\n00000f(return 2 1 2)\n").toList)
        = handleFrames demoFuncs
            [("(methods 1)\n").toList, ("(return 2 1 2)\n").toList] := by
  have H := C10_reply_per_message_amended demoFuncs
    [("(methods 1)\n").toList, ("(return 2 1 2)\n").toList] (by decide)
  exact ⟨H.1.1, H.2.2.1 (Value.int 9) (Value.int 1) (Value.int 2),
    H.2.2.2.2 (("00000c(methods 1)\n00000f(return 2 1 2)\n").toList) rfl⟩

end EPC
